import Mathlib

/-!
Verification of the LinkHub OS-bridge sandbox and installer pipeline.

This file shallowly embeds the security-relevant parts of
`backend/app/routers/os_router.py`, `backend/app/routers/installer_router.py`
and `backend/app/core/config.py`:

* path sanitization and whitelist containment (`_sanitize_and_resolve`,
  `_validate_path_within_whitelist`, `_get_allowed_dirs`),
* the heuristic executable picker (`_heuristic_pick`),
* the post-extraction single-wrapper normalization,
* the upload pipeline's cleanup behaviour, collision renaming, and the
  scan-import deduplication (`scan_and_import`),
* the installer's base-directory lookup (`_get_install_base_dir`) and the
  whitelist parser (`parse_allowed_dirs`).

Canonical filesystem paths are modelled as lists of path segments
(`List String`); raw user input is a `String`.  The effect of
`pathlib.Path.resolve()` (symlink and `.`/`..` elimination, a property of
the ambient filesystem) is modelled as an arbitrary function
`fs : String → List String` supplied to each theorem, so statements hold
for every symlink configuration.
-/

/-! ## Character/string helpers mirroring the Python primitives -/

/-- Boolean test that `n` occurs as a contiguous sublist of `h`.
Mirrors Python's `n in h` substring test (on `str`). -/
def isInfixB (n : List Char) : List Char → Bool
  | [] => n.isEmpty
  | c :: rest => n.isPrefixOf (c :: rest) || isInfixB n rest

/-- Python `s.lower()` (per-character lowercasing). -/
def lowerChars (s : List Char) : List Char := s.map Char.toLower

/-- Python `s.replace(" ", "").replace("-", "").replace("_", "")`:
removes spaces, hyphens and underscores. -/
def stripSeps (s : List Char) : List Char :=
  s.filter (fun c => !(c == ' ' || c == '-' || c == '_'))

/-- The normalized comparison key used by `_heuristic_pick`'s scoring:
`x.lower().replace(" ", "").replace("-", "").replace("_", "")`. -/
def normalizeKey (s : String) : List Char := stripSeps (lowerChars s.data)

/-- Python's `str.strip()` whitespace test (ASCII whitespace). -/
def isWS (c : Char) : Bool :=
  c == ' ' || c == '\t' || c == '\n' || c == '\r'

/-- Python `s.strip()`: remove leading and trailing whitespace. -/
def pyStrip (s : String) : String :=
  String.mk (((s.data.dropWhile isWS).reverse.dropWhile isWS).reverse)

/-! ## PathSandbox (`os_router._sanitize_and_resolve`,
`os_router._validate_path_within_whitelist`, `os_router._get_allowed_dirs`) -/

/-- Raw-input check `".." in raw_path` from `_sanitize_and_resolve`. -/
def containsDotDot (raw : String) : Bool := isInfixB ['.', '.'] raw.data

/-- `Path(raw_path).is_absolute()` on a POSIX-style model: the raw string
starts with the path separator. -/
def isAbsolutePath (raw : String) : Bool :=
  match raw.data with
  | [] => false
  | c :: _ => c == '/'

/-- The two rejection reasons of `_sanitize_and_resolve`; both are raised
as HTTP 400 bad-request errors in the source. -/
inductive SanitizeError where
  | dotDot
  | notAbsolute
deriving DecidableEq

/-- `_sanitize_and_resolve(raw_path)`: reject raw input containing `..`,
reject non-absolute paths, then canonicalize with `Path.resolve()`
(modelled by `fs`). -/
def sanitize_and_resolve (fs : String → List String) (raw : String) :
    Except SanitizeError (List String) :=
  if containsDotDot raw then .error .dotDot
  else if !isAbsolutePath raw then .error .notAbsolute
  else .ok (fs raw)

/-- `target.is_relative_to(allowed)` for two resolved absolute paths:
`allowed`'s segments are a prefix of `target`'s segments. -/
def is_relative_to (target allowed : List String) : Bool :=
  match allowed, target with
  | [], _ => true
  | _ :: _, [] => false
  | a :: as, t :: ts => a == t && is_relative_to ts as

/-- `_validate_path_within_whitelist(target, allowed_dirs)`: the resolved
target is accepted iff it is relative to at least one allowed directory. -/
def validate_path_within_whitelist (target : List String)
    (allowed_dirs : List (List String)) : Bool :=
  allowed_dirs.any (fun allowed => is_relative_to target allowed)

/-- The sandbox verdict for one call: sanitize, resolve, then check the
whitelist.  `true` means the path is accepted. -/
def sandboxAccepts (fs : String → List String) (raw : String)
    (allowed_dirs : List (List String)) : Bool :=
  match sanitize_and_resolve fs raw with
  | .error _ => false
  | .ok p => validate_path_within_whitelist p allowed_dirs

/-! ## Whitelist configuration (`config.parse_allowed_dirs`,
`os_router._get_allowed_dirs`) -/

/-- One element of the stored JSON list: a plain string (legacy format) or
an object with optional `path` / `type` fields (current format). -/
inductive JItem where
  | jstr (s : String)
  | jdict (path : Option String) (type_ : Option String)
deriving DecidableEq

/-- The state of the stored `allowed_dirs` setting as seen after JSON
parsing: missing/empty row, a JSON parse failure, a non-list JSON value,
or a parsed list of items. -/
inductive RawSetting where
  | absent
  | invalidJson
  | notAList
  | items (l : List JItem)

/-- A normalized whitelist entry (`config.DirEntry`; the optional display
label is ignored by `all_dir_paths` and plays no role here). -/
structure DirEntry where
  path : String
  type_ : String
deriving DecidableEq

/-- `config.VALID_DIR_TYPES`. -/
def VALID_DIR_TYPES : List String := ["software", "workspace"]

/-- One iteration of the loop in `config.parse_allowed_dirs`: dict items
keep a stripped non-empty `path` with a valid `type`; string items become
`type="software"`. -/
def parseDirItem : JItem → Option DirEntry
  | .jstr s =>
      let p := pyStrip s
      if p = "" then none else some ⟨p, "software"⟩
  | .jdict path type_ =>
      let p := pyStrip (path.getD "")
      let t := pyStrip (type_.getD "software")
      if p ≠ "" && VALID_DIR_TYPES.contains t then some ⟨p, t⟩ else none

/-- `config.parse_allowed_dirs(raw_json)`. -/
def parse_allowed_dirs : RawSetting → List DirEntry
  | .absent => []
  | .invalidJson => []
  | .notAList => []
  | .items l => l.filterMap parseDirItem

/-- `config.all_dir_paths(entries)`. -/
def all_dir_paths (entries : List DirEntry) : List String :=
  entries.map (·.path)

/-- `os_router._get_allowed_dirs(db)`: read the `allowed_dirs` setting,
parse it, and resolve every entry (`p.resolve()` modelled by
`resolveW`); an absent row or an empty parse yields the empty list. -/
def get_allowed_dirs (resolveW : String → List String) (row : RawSetting) :
    List (List String) :=
  match row with
  | .absent => []
  | r =>
    let entries := parse_allowed_dirs r
    if entries.isEmpty then [] else (all_dir_paths entries).map resolveW

/-! ## OS-bridge endpoints (`os_router.launch_executable`,
`os_router.open_directory`), up to the point where the process-spawn /
explorer side effect is reached -/

/-- Error taxonomy of the two endpoints: HTTP 400 (traversal / relative
path), 403 (outside whitelist), 400 for a disallowed suffix, 404. -/
inductive OsError where
  | badRequest
  | forbidden
  | unsupportedType
  | notFound
deriving DecidableEq

/-- `config.ALLOWED_EXECUTABLE_SUFFIXES`, as lowercased suffix strings. -/
def ALLOWED_EXECUTABLE_SUFFIXES : List (List Char) :=
  [['.', 'e', 'x', 'e'], ['.', 'b', 'a', 't'], ['.', 'c', 'm', 'd'],
   ['.', 'l', 'n', 'k']]

/-- `PurePath.suffix` of a file name: the last-dot suffix, empty when the
only dot is the leading character. -/
def nameSuffix (cs : List Char) : List Char :=
  let parts := cs.splitOn '.'
  match parts with
  | [] => []
  | [_] => []
  | p0 :: rest =>
    if rest.length == 1 && p0.isEmpty then []
    else '.' :: (p0 :: rest).getLastD []

/-- `resolved.suffix` on the segment model: suffix of the last segment. -/
def pathSuffix (p : List String) : List Char :=
  match p.getLast? with
  | none => []
  | some name => nameSuffix name.data

/-- `launch_executable`: sanitize + resolve, whitelist check, suffix
check, existence check; `.ok` means the `subprocess.Popen` side effect is
reached with the resolved path. -/
def launch_check (fs : String → List String)
    (allowed_dirs : List (List String)) (isFile : List String → Bool)
    (raw : String) : Except OsError (List String) :=
  match sanitize_and_resolve fs raw with
  | .error _ => .error .badRequest
  | .ok resolved =>
    if !validate_path_within_whitelist resolved allowed_dirs then
      .error .forbidden
    else if !ALLOWED_EXECUTABLE_SUFFIXES.contains
        (lowerChars (pathSuffix resolved)) then
      .error .unsupportedType
    else if !isFile resolved then .error .notFound
    else .ok resolved

/-- `open_directory`: sanitize + resolve, whitelist check, directory
existence check; `.ok` means the explorer side effect is reached. -/
def open_dir_check (fs : String → List String)
    (allowed_dirs : List (List String)) (isDir : List String → Bool)
    (raw : String) : Except OsError (List String) :=
  match sanitize_and_resolve fs raw with
  | .error _ => .error .badRequest
  | .ok resolved =>
    if !validate_path_within_whitelist resolved allowed_dirs then
      .error .forbidden
    else if !isDir resolved then .error .notFound
    else .ok resolved

/-! ## Supporting lemmas about segment containment -/

lemma is_relative_to_iff (allowed target : List String) :
    is_relative_to target allowed = true ↔ ∃ s, target = allowed ++ s := by
  induction allowed generalizing target with
  | nil => simp [is_relative_to]
  | cons a as ih =>
    cases target with
    | nil =>
      simp only [is_relative_to, List.cons_append]
      constructor
      · intro h; cases h
      · rintro ⟨s, hs⟩; cases hs
    | cons t ts =>
      simp only [is_relative_to, Bool.and_eq_true, beq_iff_eq, ih,
        List.cons_append, List.cons.injEq]
      constructor
      · rintro ⟨rfl, s, rfl⟩; exact ⟨s, rfl, rfl⟩
      · rintro ⟨s, rfl, rfl⟩; exact ⟨rfl, s, rfl⟩

/-! ## Claim C1 -/

/-- Claim C1: for every whitelist entry with canonical form `cW` and every
raw path without `..` that is absolute, the sandbox accepts iff the
canonical form of the path equals `cW` or is a path-segment-bounded
descendant of it (`cW`'s segments followed by at least one further
segment); in particular `/data/app2/x` is rejected against whitelist
entry `/data/app`, although `/data/app` is a string prefix of it. -/
theorem C1_containment :
    (∀ (fs : String → List String) (raw : String) (cW : List String),
      containsDotDot raw = false → isAbsolutePath raw = true →
      (sandboxAccepts fs raw [cW] = true ↔
        (fs raw = cW ∨ ∃ s, s ≠ [] ∧ fs raw = cW ++ s))) ∧
    sandboxAccepts (fun _ => ["data", "app2", "x"]) "/data/app2/x"
      [["data", "app"]] = false := by
  constructor
  · intro fs raw cW h1 h2
    simp only [sandboxAccepts, sanitize_and_resolve, h1, h2, Bool.false_eq_true,
      if_false, Bool.not_true, validate_path_within_whitelist, List.any_cons,
      List.any_nil, Bool.or_false, is_relative_to_iff]
    constructor
    · rintro ⟨s, hs⟩
      cases s with
      | nil => left; simpa using hs
      | cons c cs => right; exact ⟨c :: cs, by simp, hs⟩
    · rintro (h | ⟨s, _, hs⟩)
      · exact ⟨[], by simpa using h⟩
      · exact ⟨s, hs⟩
  · decide

/-- Closed instance of C1: `/data/app/x` resolving under whitelist entry
`/data/app` is accepted. -/
theorem C1_containment_witness :
    sandboxAccepts (fun _ => ["data", "app", "x"]) "/data/app/x"
      [["data", "app"]] = true :=
  (C1_containment.1 (fun _ => ["data", "app", "x"]) "/data/app/x"
      ["data", "app"] (by decide) (by decide)).mpr
    (Or.inr ⟨["x"], by decide, rfl⟩)

/-! ## Claim C2 -/

/-- Claim C2: a raw path containing `..` is rejected with a bad-request
error for every whitelist configuration (including the empty one) and for
every filesystem resolution function — the `.error .dotDot` result is
independent of `fs`, so no canonicalization is consulted; likewise every
non-absolute raw path is rejected by sanitization. -/
theorem C2_traversal_rejection :
    (∀ (fs : String → List String) (allowed_dirs : List (List String))
      (isFile : List String → Bool) (raw : String),
      containsDotDot raw = true →
      sanitize_and_resolve fs raw = .error .dotDot ∧
      launch_check fs allowed_dirs isFile raw = .error .badRequest) ∧
    (∀ (fs : String → List String) (raw : String),
      isAbsolutePath raw = false →
      sanitize_and_resolve fs raw = .error .dotDot ∨
      sanitize_and_resolve fs raw = .error .notAbsolute) := by
  constructor
  · intro fs allowed_dirs isFile raw h
    simp [sanitize_and_resolve, launch_check, h]
  · intro fs raw h
    by_cases hdd : containsDotDot raw = true
    · left; simp [sanitize_and_resolve, hdd]
    · right
      simp only [Bool.not_eq_true] at hdd
      simp [sanitize_and_resolve, hdd, h]

/-- Closed instance of C2: `/a/../b` is rejected with the traversal error
under the empty whitelist, and the relative path `rel/x` is rejected by
sanitization. -/
theorem C2_traversal_rejection_witness :
    launch_check (fun _ => []) [] (fun _ => false) "/a/../b" =
      .error .badRequest ∧
    (sanitize_and_resolve (fun _ => []) "rel/x" = .error .dotDot ∨
      sanitize_and_resolve (fun _ => []) "rel/x" = .error .notAbsolute) :=
  ⟨(C2_traversal_rejection.1 (fun _ => []) [] (fun _ => false) "/a/../b"
      (by decide)).2,
   C2_traversal_rejection.2 (fun _ => []) "rel/x" (by decide)⟩

/-! ## ExecutableHeuristicPicker (`installer_router._heuristic_pick`) -/

/-- A candidate executable found under the installation directory: its
full path (as segments), its filename stem (`Path.stem`), and its size in
bytes (`none` models an `OSError` from `stat()`). -/
structure Candidate where
  path : List String
  stem : String
  size : Option Nat
deriving DecidableEq

/-- The `exclude_keywords` set of `_heuristic_pick`. -/
def EXCLUDE_KEYWORDS : List String :=
  ["uninstall", "uninst", "update", "updater", "crash", "helper"]

/-- The exclusion test of `_heuristic_pick`:
`any(kw in e.stem.lower() for kw in exclude_keywords)` — note the stem is
only lowercased here, separators are not removed. -/
def isExcluded (stem : String) : Bool :=
  EXCLUDE_KEYWORDS.any (fun kw => isInfixB kw.data (lowerChars stem.data))

/-- Modelled from the spec's words, for comparison with `isExcluded`
(claim C3): the spec describes the exclusion pass as operating on the
fully normalized stem (lowercased with spaces, hyphens and underscores
removed). -/
def isExcludedSpecNormalized (stem : String) : Bool :=
  EXCLUDE_KEYWORDS.any (fun kw => isInfixB kw.data (normalizeKey stem))

/-- The exclusion pass of `_heuristic_pick` with its fallback: if every
candidate is excluded, keep the original list. -/
def pickFiltered (executables : List Candidate) : List Candidate :=
  if (executables.filter (fun e => !isExcluded e.stem)).isEmpty then
    executables
  else executables.filter (fun e => !isExcluded e.stem)

/-- `config.EXE_PRIORITY_KEYWORDS`. -/
def EXE_PRIORITY_KEYWORDS : List String :=
  ["launcher", "main", "start", "run", "app", "setup"]

/-- The scoring triple `(name_score, keyword_score, size)`. -/
abbrev Score := Nat × Nat × Nat

/-- The `score` closure inside `_heuristic_pick`: name-match score on the
normalized stem vs. the normalized program name (2 exact, 1 substring
either way, 0 otherwise), launcher-keyword score, and file size with a
failed `stat()` treated as 0. -/
def score (software_name : String) (exe : Candidate) : Score :=
  let name_lower := normalizeKey software_name
  let stem := normalizeKey exe.stem
  let name_score : Nat :=
    if stem = name_lower then 2
    else if isInfixB name_lower stem || isInfixB stem name_lower then 1
    else 0
  let keyword_score : Nat :=
    if EXE_PRIORITY_KEYWORDS.any (fun kw => isInfixB kw.data stem) then 1
    else 0
  (name_score, keyword_score, exe.size.getD 0)

/-- Strict lexicographic order on score triples. -/
def tupLt (a b : Score) : Bool :=
  decide (a.1 < b.1) ||
    (decide (a.1 = b.1) &&
      (decide (a.2.1 < b.2.1) ||
        (decide (a.2.1 = b.2.1) && decide (a.2.2 < b.2.2))))

/-- Stable descending insertion: `x` is placed before the first element
whose key does not exceed `x`'s, matching the behaviour of Python's
stable `list.sort(key=score, reverse=True)` on the resulting order. -/
def insertDesc {α : Type} (key : α → Score) (x : α) : List α → List α
  | [] => [x]
  | y :: ys =>
    if !tupLt (key x) (key y) then x :: y :: ys
    else y :: insertDesc key x ys

/-- Stable descending sort by key (insertion sort), the order produced by
`filtered.sort(key=score, reverse=True)`. -/
def sortDesc {α : Type} (key : α → Score) : List α → List α
  | [] => []
  | x :: xs => insertDesc key x (sortDesc key xs)

/-- The earliest element of maximal key, i.e. `sorted[0]` for a stable
descending sort. -/
def firstMaxBy {α : Type} (key : α → Score) : List α → Option α
  | [] => none
  | x :: xs =>
    match firstMaxBy key xs with
    | none => some x
    | some m => if !tupLt (key x) (key m) then some x else some m

/-- `installer_router._heuristic_pick(executables, software_name)`. -/
def heuristic_pick (executables : List Candidate) (software_name : String) :
    Option Candidate :=
  match executables with
  | [] => none
  | _ :: _ => (sortDesc (score software_name) (pickFiltered executables)).head?

/-! ### Order and sorting lemmas -/

lemma tupLt_iff (a b : Score) : tupLt a b = true ↔
    (a.1 < b.1 ∨ (a.1 = b.1 ∧
      (a.2.1 < b.2.1 ∨ (a.2.1 = b.2.1 ∧ a.2.2 < b.2.2)))) := by
  simp [tupLt]

lemma tupLt_asProp (a b : Score) : tupLt a b = false ↔
    ¬ (a.1 < b.1 ∨ (a.1 = b.1 ∧
      (a.2.1 < b.2.1 ∨ (a.2.1 = b.2.1 ∧ a.2.2 < b.2.2)))) := by
  rw [← tupLt_iff]
  cases h : tupLt a b <;> simp

lemma tupLt_le_trans {a b c : Score} (h1 : tupLt a b = false)
    (h2 : tupLt b c = false) : tupLt a c = false := by
  obtain ⟨a1, a2, a3⟩ := a
  obtain ⟨b1, b2, b3⟩ := b
  obtain ⟨c1, c2, c3⟩ := c
  rw [tupLt_asProp] at h1 h2 ⊢
  dsimp at h1 h2 ⊢
  omega

lemma tupLt_lt_le {a b c : Score} (h1 : tupLt a b = true)
    (h2 : tupLt c b = false) : tupLt c a = false := by
  obtain ⟨a1, a2, a3⟩ := a
  obtain ⟨b1, b2, b3⟩ := b
  obtain ⟨c1, c2, c3⟩ := c
  rw [tupLt_iff] at h1
  rw [tupLt_asProp] at h2 ⊢
  dsimp at h1 h2 ⊢
  omega

lemma mem_insertDesc {α : Type} (key : α → Score) (x : α) (l : List α)
    (a : α) : a ∈ insertDesc key x l ↔ a = x ∨ a ∈ l := by
  induction l with
  | nil => simp [insertDesc]
  | cons y ys ih =>
    simp only [insertDesc]
    split
    · simp
    · simp only [List.mem_cons, ih]
      tauto

lemma mem_sortDesc {α : Type} (key : α → Score) (l : List α) (a : α) :
    a ∈ sortDesc key l ↔ a ∈ l := by
  induction l with
  | nil => simp [sortDesc]
  | cons x xs ih => simp [sortDesc, mem_insertDesc, ih]

lemma head?_sortDesc {α : Type} (key : α → Score) (l : List α) :
    (sortDesc key l).head? = firstMaxBy key l := by
  induction l with
  | nil => rfl
  | cons x xs ih =>
    simp only [sortDesc, firstMaxBy, ← ih]
    cases hs : sortDesc key xs with
    | nil => simp [insertDesc]
    | cons y ys =>
      simp only [insertDesc, List.head?_cons]
      split <;> simp

lemma firstMaxBy_eq_none {α : Type} (key : α → Score) (l : List α) :
    firstMaxBy key l = none ↔ l = [] := by
  cases l with
  | nil => simp [firstMaxBy]
  | cons x xs =>
    cases hm : firstMaxBy key xs with
    | none => simp [firstMaxBy, hm]
    | some m =>
      simp only [firstMaxBy, hm]
      constructor
      · intro h
        split at h <;> simp at h
      · intro h
        cases h

lemma firstMaxBy_spec {α : Type} (key : α → Score) (l : List α) (r : α)
    (h : firstMaxBy key l = some r) :
    ∃ l1 l2, l = l1 ++ r :: l2 ∧
      (∀ y ∈ l1, tupLt (key y) (key r) = true) ∧
      (∀ y ∈ l2, tupLt (key r) (key y) = false) := by
  induction l generalizing r with
  | nil => simp [firstMaxBy] at h
  | cons x xs ih =>
    cases hm : firstMaxBy key xs with
    | none =>
      have hxs : xs = [] := (firstMaxBy_eq_none key xs).mp hm
      subst hxs
      simp only [firstMaxBy] at h
      obtain rfl : x = r := by injection h
      exact ⟨[], [], by simp, by simp, by simp⟩
    | some m =>
      simp only [firstMaxBy, hm] at h
      obtain ⟨m1, m2, hdecomp, hlt, hge⟩ := ih m hm
      split at h <;> rename_i hcond
      · obtain rfl : x = r := by injection h
        have hx : tupLt (key x) (key m) = false := by simpa using hcond
        refine ⟨[], xs, by simp, by simp, ?_⟩
        intro y hy
        rw [hdecomp] at hy
        rcases List.mem_append.mp hy with hy1 | hy2
        · exact tupLt_lt_le (hlt y hy1) hx
        · rcases List.mem_cons.mp hy2 with rfl | hy3
          · exact hx
          · exact tupLt_le_trans hx (hge y hy3)
      · obtain rfl : m = r := by injection h
        have hx : tupLt (key x) (key m) = true := by simpa using hcond
        refine ⟨x :: m1, m2, by simp [hdecomp], ?_, hge⟩
        intro y hy
        rcases List.mem_cons.mp hy with rfl | hy1
        · exact hx
        · exact hlt y hy1

lemma pickFiltered_ne_nil (l : List Candidate) (h : l ≠ []) :
    pickFiltered l ≠ [] := by
  unfold pickFiltered
  split
  · exact h
  · rename_i hne
    simpa [List.isEmpty_iff] using hne

lemma mem_pickFiltered (l : List Candidate) (e : Candidate)
    (h : e ∈ pickFiltered l) : e ∈ l := by
  unfold pickFiltered at h
  split at h
  · exact h
  · exact (List.mem_filter.mp h).1

lemma heuristic_pick_eq_firstMax (l : List Candidate) (name : String)
    (h : l ≠ []) :
    heuristic_pick l name = firstMaxBy (score name) (pickFiltered l) := by
  cases l with
  | nil => exact absurd rfl h
  | cons x xs => simp [heuristic_pick, head?_sortDesc]

/-! ## Claim C3 -/

/-- Claim C3 counterexample: the spec-style normalized stem of
`Un-Install` contains the marker `uninstall`, so by the claim it must be
dropped; but the code's exclusion pass only lowercases (`un-install`
contains no marker), so the candidate survives the pass and is in fact
returned by the picker. -/
theorem C3_exclusion_counterexample :
    isExcludedSpecNormalized "Un-Install" = true ∧
    isExcluded "Un-Install" = false ∧
    pickFiltered [⟨["Un-Install.exe"], "Un-Install", some 100⟩,
        ⟨["keepme.exe"], "keepme", some 50⟩] =
      [⟨["Un-Install.exe"], "Un-Install", some 100⟩,
        ⟨["keepme.exe"], "keepme", some 50⟩] ∧
    heuristic_pick [⟨["Un-Install.exe"], "Un-Install", some 100⟩,
        ⟨["keepme.exe"], "keepme", some 50⟩] "zzz" =
      some ⟨["Un-Install.exe"], "Un-Install", some 100⟩ :=
  ⟨by decide, by decide, by decide, by decide⟩

/-- Claim C3 (amended): in the exclusion pass a candidate is dropped iff
its *lowercased* stem (spaces, hyphens and underscores retained) contains
one of the fixed exclusion markers, provided at least one candidate
survives; if every candidate matches a marker the original set is kept;
`Uninstall` is excluded while `Un-Install` is not. -/
theorem C3_exclusion_amended :
    (∀ l : List Candidate, (∃ e ∈ l, isExcluded e.stem = false) →
      ∀ e : Candidate,
        e ∈ pickFiltered l ↔ (e ∈ l ∧ isExcluded e.stem = false)) ∧
    (∀ l : List Candidate, (∀ e ∈ l, isExcluded e.stem = true) →
      pickFiltered l = l) ∧
    isExcluded "Uninstall" = true ∧ isExcluded "Un-Install" = false := by
  refine ⟨?_, ?_, by decide, by decide⟩
  · rintro l ⟨w, hw, hwx⟩ e
    have hmem : w ∈ l.filter (fun e => !isExcluded e.stem) :=
      List.mem_filter.mpr ⟨hw, by simp [hwx]⟩
    have hne : (l.filter (fun e => !isExcluded e.stem)).isEmpty = false := by
      cases hembed : l.filter (fun e => !isExcluded e.stem) with
      | nil => rw [hembed] at hmem; cases hmem
      | cons a as => simp
    unfold pickFiltered
    rw [hne]
    simp [List.mem_filter]
  · intro l hall
    have : l.filter (fun e => !isExcluded e.stem) = [] := by
      rw [List.filter_eq_nil_iff]
      intro a ha
      simp [hall a ha]
    unfold pickFiltered
    rw [this]
    rfl

/-- Closed instance of the amended C3: a candidate whose lowercased stem
contains no marker is kept by the exclusion pass. -/
theorem C3_exclusion_amended_witness :
    (⟨["keepme.exe"], "keepme", some 50⟩ : Candidate) ∈
      pickFiltered [⟨["keepme.exe"], "keepme", some 50⟩] :=
  ((C3_exclusion_amended.1 [⟨["keepme.exe"], "keepme", some 50⟩]
      ⟨⟨["keepme.exe"], "keepme", some 50⟩, by decide, by decide⟩
      ⟨["keepme.exe"], "keepme", some 50⟩).mpr ⟨by decide, by decide⟩)

/-! ## Claim C4 -/

/-- Claim C4: the picker returns `none` iff the candidate set is empty;
a read failure scores like size 0; the returned candidate is an element
of the post-exclusion list such that every earlier element scores
strictly lower and every later element scores no higher under the
lexicographic `(name_score, keyword_score, size)` order — i.e. the first
element of the stable descending sort; and on the concrete example
`[uninstall.exe (1KB), Foo.exe (2KB), FooHelper.exe (500B)]` with program
name `Foo` it returns `Foo.exe`. -/
theorem C4_picker_scoring :
    (∀ (name : String) (cands : List Candidate),
      heuristic_pick cands name = none ↔ cands = []) ∧
    (∀ (name : String) (p : List String) (stem : String),
      score name ⟨p, stem, none⟩ = score name ⟨p, stem, some 0⟩) ∧
    (∀ (name : String) (cands : List Candidate) (r : Candidate),
      heuristic_pick cands name = some r →
      ∃ l1 l2, pickFiltered cands = l1 ++ r :: l2 ∧
        (∀ y ∈ l1, tupLt (score name y) (score name r) = true) ∧
        (∀ y ∈ l2, tupLt (score name r) (score name y) = false)) ∧
    heuristic_pick [⟨["uninstall.exe"], "uninstall", some 1024⟩,
        ⟨["Foo.exe"], "Foo", some 2048⟩,
        ⟨["FooHelper.exe"], "FooHelper", some 500⟩] "Foo" =
      some ⟨["Foo.exe"], "Foo", some 2048⟩ := by
  refine ⟨?_, ?_, ?_, by decide⟩
  · intro name cands
    constructor
    · intro h
      by_contra hne
      rw [heuristic_pick_eq_firstMax cands name hne] at h
      exact pickFiltered_ne_nil cands hne
        ((firstMaxBy_eq_none _ _).mp h)
    · rintro rfl; rfl
  · intro name p stem
    rfl
  · intro name cands r h
    have hne : cands ≠ [] := by rintro rfl; simp [heuristic_pick] at h
    rw [heuristic_pick_eq_firstMax cands name hne] at h
    exact firstMaxBy_spec _ _ _ h

/-- Closed instance of C4: the picker on the empty candidate set returns
`none`, via the theorem's first component. -/
theorem C4_picker_scoring_witness :
    heuristic_pick [] "Foo" = none :=
  (C4_picker_scoring.1 "Foo" []).mpr rfl

/-! ## Post-extraction normalization (`upload_and_install`, the
single-nested-directory hoist) -/

/-- A node of the extracted directory tree: a file, or a directory with
named children. -/
inductive Node where
  | file : Node
  | dir : List (String × Node) → Node

/-- The failure mode of the hoist loop: `shutil.move(item, install_dir /
item.name)` with `item.name` equal to the wrapper's own name finds the
destination (the wrapper itself) existing as a directory, computes the
real destination `wrapper/item.name` — the source itself — and raises
`shutil.Error: Destination path already exists`. -/
inductive HoistError where
  | moveCollision
deriving DecidableEq

/-- The hoist step after extraction: if the extracted root has exactly
one entry and it is a directory, move its children up one level and
remove the wrapper; a child sharing the wrapper's own name makes
`shutil.move` raise (the exception escapes to the generic handler, which
removes the install directory); every other layout is untouched. -/
def normalizeExtracted (root : List (String × Node)) :
    Except HoistError (List (String × Node)) :=
  match root with
  | [(n, Node.dir cs)] =>
      if cs.any (fun c => c.1 == n) then .error .moveCollision
      else .ok cs
  | _ => .ok root

lemma normalizeExtracted_eq_self (root : List (String × Node))
    (h : ∀ (n : String) (cs : List (String × Node)),
      root ≠ [(n, Node.dir cs)]) :
    normalizeExtracted root = .ok root := by
  rcases root with _ | ⟨⟨n, nd⟩, rest⟩
  · rfl
  · cases nd with
    | file =>
      cases rest with
      | nil => rfl
      | cons q qs => rfl
    | dir cs =>
      cases rest with
      | nil => exact absurd rfl (h n cs)
      | cons q qs => rfl

/-! ## Claim C5 -/

/-- Claim C5 counterexample: the hoist is a single pass and hence not
idempotent — on a doubly nested wrapper `X/Y/a` it yields `Y/a`
(already-normalized output, still a single directory entry), and applied
again to that output it hoists once more, so the normalization changes
an already-normalized directory. -/
theorem C5_normalization_counterexample :
    normalizeExtracted
        [("X", Node.dir [("Y", Node.dir [("a", Node.file)])])] =
      .ok [("Y", Node.dir [("a", Node.file)])] ∧
    normalizeExtracted [("Y", Node.dir [("a", Node.file)])] =
      .ok [("a", Node.file)] ∧
    ([("a", Node.file)] : List (String × Node)) ≠
      [("Y", Node.dir [("a", Node.file)])] := by
  refine ⟨rfl, rfl, ?_⟩
  intro h'
  have h1 : (("a", Node.file) : String × Node) =
      ("Y", Node.dir [("a", Node.file)]) := by injection h'
  have h2 : ("a" : String) = "Y" := congrArg Prod.fst h1
  exact absurd h2 (by decide)

/-- Claim C5 (amended): the pass hoists iff the extracted root contains
exactly one entry, that entry is a directory, and none of its children
shares the wrapper's own name (in the colliding case `shutil.move`
raises and the install aborts); layouts with zero entries, two or more
entries, or a single file entry are unchanged; and, being a single pass,
it is idempotent exactly on inputs whose output is not again a single
hoistable directory entry — a doubly nested wrapper is hoisted only one
level, so applying it twice can differ from applying it once. -/
theorem C5_normalization_amended :
    (∀ (n : String) (cs : List (String × Node)),
      (∀ c ∈ cs, c.1 ≠ n) →
      normalizeExtracted [(n, Node.dir cs)] = .ok cs) ∧
    (∀ (n : String) (cs : List (String × Node)),
      (∃ c ∈ cs, c.1 = n) →
      normalizeExtracted [(n, Node.dir cs)] = .error .moveCollision) ∧
    (∀ root : List (String × Node),
      (∀ (n : String) (cs : List (String × Node)),
        root ≠ [(n, Node.dir cs)]) →
      normalizeExtracted root = .ok root) ∧
    (∀ (root r : List (String × Node)),
      normalizeExtracted root = .ok r →
      (∀ (n : String) (cs : List (String × Node)),
        r ≠ [(n, Node.dir cs)]) →
      normalizeExtracted r = .ok r) := by
  refine ⟨?_, ?_, normalizeExtracted_eq_self, ?_⟩
  · intro n cs h
    have hany : cs.any (fun c => c.1 == n) = false := by
      rw [Bool.eq_false_iff]
      intro hc
      obtain ⟨c, hc1, hc2⟩ := List.any_eq_true.mp hc
      exact h c hc1 (by simpa using hc2)
    simp [normalizeExtracted, hany]
  · intro n cs h
    obtain ⟨c, hc1, hc2⟩ := h
    have hany : cs.any (fun c => c.1 == n) = true :=
      List.any_eq_true.mpr ⟨c, hc1, by simpa using hc2⟩
    simp [normalizeExtracted, hany]
  · intro root r hr h
    exact normalizeExtracted_eq_self r h

/-- Closed instance of the amended C5: a single wrapper `X` holding
`a`, `b` is hoisted to `a`, `b` directly (no name collision). -/
theorem C5_normalization_amended_witness :
    normalizeExtracted [("X", Node.dir [("a", Node.file),
        ("b", Node.file)])] =
      .ok [("a", Node.file), ("b", Node.file)] :=
  C5_normalization_amended.1 "X" [("a", Node.file), ("b", Node.file)]
    (by decide)

/-! ## InstallationPipeline cleanup (`upload_and_install`,
try/except/finally structure) -/

/-- Which of the two cleanup-relevant filesystem artifacts currently
exist: the temporary uploaded archive `_temp_<filename>` and the
destination directory `install_dir`. -/
structure InstallFsState where
  tempExists : Bool
  destExists : Bool
deriving DecidableEq

/-- The observable outcome of one `upload_and_install` request: HTTP 201,
HTTP 400 for an invalid ZIP, or HTTP 500 from the generic handler. -/
inductive InstallResult where
  | created
  | invalidZip
  | serverError
deriving DecidableEq

/-- The exception classes distinguished by the handlers of
`upload_and_install`: the re-raised `HTTPException` from the BadZipFile
branch, and everything caught by the generic `except Exception`. -/
inductive PyExc where
  | httpBadZip
  | genericError
deriving DecidableEq

/-- The `try` block of `upload_and_install`, step by step: create the
base directory, open and write the temporary archive, create
`install_dir`, extract (the BadZipFile branch removes `install_dir`
itself before re-raising), then the remaining steps (hoist, heuristic
pick, DB write; LLM and index failures are swallowed inside and cannot
escape).  Each Boolean selects whether that step succeeds.  An error
carries the filesystem state at the raise point. -/
def upload_try_body (mkBaseOk openOk writeOk zipValid extractOk laterOk :
    Bool) : Except (PyExc × InstallFsState) InstallFsState :=
  if !mkBaseOk then .error (.genericError, ⟨false, false⟩)
  else if !openOk then .error (.genericError, ⟨false, false⟩)
  else if !writeOk then .error (.genericError, ⟨true, false⟩)
  else if !zipValid then .error (.httpBadZip, ⟨true, false⟩)
  else if !extractOk then .error (.genericError, ⟨true, true⟩)
  else if !laterOk then .error (.genericError, ⟨true, true⟩)
  else .ok ⟨true, true⟩

/-- The two `except` clauses: `except HTTPException: raise` passes the
already-cleaned state through; `except Exception` removes `install_dir`
(if it exists) before returning HTTP 500. -/
def upload_except_handlers :
    PyExc × InstallFsState → InstallResult × InstallFsState
  | (.httpBadZip, s) => (.invalidZip, s)
  | (.genericError, s) => (.serverError, ⟨s.tempExists, false⟩)

/-- The `finally` clause: unlink the temporary archive if it exists. -/
def upload_finally (r : InstallResult × InstallFsState) :
    InstallResult × InstallFsState :=
  (r.1, ⟨false, r.2.destExists⟩)

/-- The complete control flow of `upload_and_install` over the
cleanup-relevant state. -/
def upload_and_install_cleanup (mkBaseOk openOk writeOk zipValid extractOk
    laterOk : Bool) : InstallResult × InstallFsState :=
  upload_finally
    (match upload_try_body mkBaseOk openOk writeOk zipValid extractOk
        laterOk with
     | .ok s => (.created, s)
     | .error e => upload_except_handlers e)

/-! ## Claim C6 -/

/-- Claim C6: on every exit path of the installation (success and every
combination of step failures) the temporary archive file is gone; on
every failing path the destination directory is gone as well, while a
successful install keeps it. -/
theorem C6_cleanup_on_failure (mkBaseOk openOk writeOk zipValid extractOk
    laterOk : Bool) :
    (upload_and_install_cleanup mkBaseOk openOk writeOk zipValid extractOk
        laterOk).2.tempExists = false ∧
    ((upload_and_install_cleanup mkBaseOk openOk writeOk zipValid extractOk
        laterOk).1 ≠ .created →
      (upload_and_install_cleanup mkBaseOk openOk writeOk zipValid
          extractOk laterOk).2.destExists = false) ∧
    ((upload_and_install_cleanup mkBaseOk openOk writeOk zipValid extractOk
        laterOk).1 = .created →
      (upload_and_install_cleanup mkBaseOk openOk writeOk zipValid
          extractOk laterOk).2.destExists = true) := by
  cases mkBaseOk <;> cases openOk <;> cases writeOk <;> cases zipValid <;>
    cases extractOk <;> cases laterOk <;> decide

/-- Closed instance of C6: an install failing at extraction (invalid ZIP)
leaves no destination directory behind. -/
theorem C6_cleanup_on_failure_witness :
    (upload_and_install_cleanup true true true false true true).2.destExists
      = false :=
  (C6_cleanup_on_failure true true true false true true).2.1 (by decide)

/-! ## Collision renaming (`upload_and_install`, destination directory
suffixing) -/

/-- The `while (base_dir / f"{software_name}_{counter}").exists()` loop:
starting from counter `c`, find the first free suffixed name.  `fuel`
bounds the search so the definition is total; the caller passes one more
than the number of existing entries, and the theorem about it is stated
for every successful return. -/
def findFreeSuffix (existing : List String) (name : String) :
    Nat → Nat → Option (String × Nat)
  | _, 0 => none
  | c, fuel + 1 =>
    if existing.contains (name ++ "_" ++ toString c) then
      findFreeSuffix existing name (c + 1) fuel
    else some (name ++ "_" ++ toString c, c)

/-- The collision-renaming step of `upload_and_install`: keep the archive
stem as the name if the directory is free, otherwise append `_1`, `_2`,
… until a free name is found; `existing` is the set of entry names in the
base directory. -/
def resolve_install_name (existing : List String) (name : String) :
    Option String :=
  if existing.contains name then
    (findFreeSuffix existing name 1 (existing.length + 1)).map (·.1)
  else some name

/-- The resulting (install directory, working program name) pair: both
use the same resolved name. -/
def resolve_install_dir (existing : List String) (base : String)
    (name : String) : Option (String × String) :=
  (resolve_install_name existing name).map (fun n => (base ++ "/" ++ n, n))

lemma findFreeSuffix_spec (existing : List String) (name : String)
    (fuel : Nat) :
    ∀ (c0 : Nat) (r : String) (c : Nat),
    findFreeSuffix existing name c0 fuel = some (r, c) →
    r = name ++ "_" ++ toString c ∧ existing.contains r = false ∧
      c0 ≤ c ∧ ∀ k, c0 ≤ k → k < c →
        existing.contains (name ++ "_" ++ toString k) = true := by
  induction fuel with
  | zero => intro c0 r c h; simp [findFreeSuffix] at h
  | succ n ih =>
    intro c0 r c h
    simp only [findFreeSuffix] at h
    split at h
    · rename_i hc
      obtain ⟨hr, hnc, hle, hall⟩ := ih (c0 + 1) r c h
      refine ⟨hr, hnc, by omega, ?_⟩
      intro k hk1 hk2
      rcases Nat.eq_or_lt_of_le hk1 with rfl | hlt
      · exact hc
      · exact hall k hlt hk2
    · rename_i hc
      have h' : (name ++ "_" ++ toString c0, c0) = (r, c) := by injection h
      injection h' with h1 h2
      subst h2
      subst h1
      refine ⟨rfl, Bool.eq_false_iff.mpr hc, Nat.le_refl c0, ?_⟩
      intro k hk1 hk2
      omega

/-! ## Claim C7 -/

/-- Claim C7: a name whose directory is free is kept unchanged; on a
collision the pipeline returns `name_c` for the least counter `c ≥ 1`
whose directory does not exist, applying the same renamed string to both
the install directory and the working program name; concretely, a second
upload of `TestSoft.zip` next to an existing `TestSoft` directory yields
the name `TestSoft_1` and a distinct install directory. -/
theorem C7_collision_rename :
    (∀ (existing : List String) (name : String),
      existing.contains name = false →
      resolve_install_name existing name = some name) ∧
    (∀ (existing : List String) (name r : String),
      existing.contains name = true →
      resolve_install_name existing name = some r →
      existing.contains r = false ∧
      ∃ c, 1 ≤ c ∧ r = name ++ "_" ++ toString c ∧
        ∀ k, 1 ≤ k → k < c →
          existing.contains (name ++ "_" ++ toString k) = true) ∧
    (resolve_install_dir ["TestSoft"] "/apps" "TestSoft" =
        some ("/apps/TestSoft_1", "TestSoft_1") ∧
      ("TestSoft_1" : String) ≠ "TestSoft" ∧
      ("/apps/TestSoft_1" : String) ≠ "/apps/TestSoft") := by
  refine ⟨?_, ?_, by decide, by decide, by decide⟩
  · intro existing name h
    unfold resolve_install_name
    rw [if_neg (by simpa using h)]
  · intro existing name r h hr
    rw [resolve_install_name, if_pos h] at hr
    rcases Option.map_eq_some'.mp hr with ⟨⟨r', c⟩, hf, hr1⟩
    obtain ⟨hname, hnc, hle, hall⟩ :=
      findFreeSuffix_spec existing name (existing.length + 1) 1 r' c hf
    subst hr1
    exact ⟨hnc, c, hle, hname, hall⟩

/-- Closed instance of C7: with no existing directory the name is kept. -/
theorem C7_collision_rename_witness :
    resolve_install_name [] "TestSoft" = some "TestSoft" :=
  C7_collision_rename.1 [] "TestSoft" (by decide)

/-! ## Installer base directory (`installer_router._get_install_base_dir`) -/

/-- `config.DEFAULT_ALLOWED_DIRS` — the empty list (its element type in
the source is `DirEntry`, i.e. dict items). -/
def DEFAULT_ALLOWED_DIRS : List JItem := []

/-- The observable outcome of `_get_install_base_dir`: a base path, or an
uncaught Python exception escaping the function. -/
inductive BaseDirResult where
  | ok (path : String)
  | crash (exc : String)
deriving DecidableEq

/-- The final `return Path(DEFAULT_ALLOWED_DIRS[0])`: indexing the empty
default list raises an uncaught `IndexError` (and a dict element would
make `Path(...)` raise an uncaught `TypeError`). -/
def installBaseFallback : BaseDirResult :=
  match DEFAULT_ALLOWED_DIRS with
  | [] => .crash "IndexError"
  | .jstr s :: _ => .ok s
  | .jdict _ _ :: _ => .crash "TypeError"

/-- `installer_router._get_install_base_dir(db)`: `json.loads` the stored
row and return `Path(dirs[0])` for a non-empty list.  A string first
element works (legacy format); a dict first element (current entry-object
format) makes `Path(dirs[0])` raise `TypeError`, which the
`except (json.JSONDecodeError, TypeError)` clause swallows, so control
reaches the fallback — as it also does for an absent row, a parse
failure, a non-list value, or an empty list. -/
def get_install_base_dir (row : RawSetting) : BaseDirResult :=
  match row with
  | .items (JItem.jstr s :: _) => .ok s
  | .items (JItem.jdict _ _ :: _) => installBaseFallback
  | _ => installBaseFallback

/-! ## Claim C8 -/

/-- Claim C8 (code bug): with the legacy plain-string-list representation
`_get_install_base_dir` returns the first configured root, but with the
current entry-object representation it crashes with an uncaught
`IndexError` (TypeError from `Path(dict)` is swallowed, then the empty
`DEFAULT_ALLOWED_DIRS` is indexed), so the pipeline never places the
destination under the configured software root — although the repo's own
`parse_allowed_dirs`, used by the OS bridge on the very same stored
value, accepts that representation. -/
theorem C8_base_dir_crash_on_entry_objects :
    get_install_base_dir (.items [.jstr "/apps"]) = .ok "/apps" ∧
    get_install_base_dir
        (.items [.jdict (some "/apps") (some "software")]) =
      .crash "IndexError" ∧
    parse_allowed_dirs (.items [.jdict (some "/apps") (some "software")]) =
      [⟨"/apps", "software"⟩] ∧
    get_allowed_dirs (fun s => [s])
        (.items [.jdict (some "/apps") (some "software")]) = [["/apps"]] :=
  ⟨rfl, rfl, by decide, by decide⟩

/-! ## DirectoryImportScanner (`installer_router.scan_and_import`) -/

/-- One record of the `portable_software` table as the scan sees it: the
record name and its stored `executable_path` (`none` models the empty
string written when no executable was found; the initial
`existing_paths` set keeps only truthy values). -/
structure DbRecord where
  name : String
  exePath : Option (List String)
deriving DecidableEq

/-- One first-level subdirectory of a scanned whitelist root: its name
and the candidate executables `_find_executables` returns inside it
(whose paths all start with the subdirectory's own name segment). -/
structure SubdirModel where
  name : String
  exes : List Candidate
deriving DecidableEq

/-- `exe_path_str` as computed by `scan_and_import` for one subdirectory:
empty (`none`) when there are no executables, otherwise the heuristic
pick with a fallback to the first executable. -/
def scanExePath (exes : List Candidate) (name : String) :
    Option (List String) :=
  match exes with
  | [] => none
  | e :: rest =>
    match heuristic_pick (e :: rest) name with
    | some best => some best.path
    | none => some e.path

/-- The record `scan_and_import` inserts for an imported subdirectory. -/
def mkScanRecord (s : SubdirModel) : DbRecord :=
  ⟨s.name, scanExePath s.exes s.name⟩

/-- The running state of one `scan_and_import` request: the metadata
store, the in-memory `existing_paths` set, and the imported/skipped
counters. -/
structure ScanState where
  db : List DbRecord
  existingPaths : List (List String)
  imported : Nat
  skipped : Nat
deriving DecidableEq

/-- `if exe_path_str and exe_path_str in existing_paths`: a non-empty
picked path that is already known. -/
def pathAlreadyKnown (st : ScanState) (exe : Option (List String)) : Bool :=
  match exe with
  | some p => st.existingPaths.contains p
  | none => false

/-- The name-deduplication query: a record with the same name exists. -/
def nameAlreadyKnown (st : ScanState) (name : String) : Bool :=
  st.db.any (fun r => r.name == name)

/-- Processing of one subdirectory by `scan_and_import`: skip when the
picked executable path is non-empty and already known, else skip when a
record with the same name exists, else insert a new record, remember its
path, and count the import. -/
def scanStep (st : ScanState) (s : SubdirModel) : ScanState :=
  let exe := scanExePath s.exes s.name
  if pathAlreadyKnown st exe then { st with skipped := st.skipped + 1 }
  else if nameAlreadyKnown st s.name then
    { st with skipped := st.skipped + 1 }
  else
    { db := st.db ++ [⟨s.name, exe⟩],
      existingPaths :=
        match exe with
        | some p => st.existingPaths ++ [p]
        | none => st.existingPaths,
      imported := st.imported + 1,
      skipped := st.skipped }

/-- `scan_and_import` over the first-level subdirectories of the scanned
roots, starting from the current metadata store; `existing_paths` is
initialized from the non-empty stored paths. -/
def scan_and_import_model (init : List DbRecord)
    (subdirs : List SubdirModel) : ScanState :=
  subdirs.foldl scanStep ⟨init, init.filterMap (·.exePath), 0, 0⟩

/-! ### Scan lemmas -/

lemma heuristic_pick_mem (l : List Candidate) (name : String)
    (b : Candidate) (h : heuristic_pick l name = some b) : b ∈ l := by
  have hne : l ≠ [] := by rintro rfl; simp [heuristic_pick] at h
  rw [heuristic_pick_eq_firstMax l name hne] at h
  obtain ⟨l1, l2, hd, _, _⟩ := firstMaxBy_spec _ _ _ h
  refine mem_pickFiltered l b ?_
  rw [hd]
  exact List.mem_append_right _ (List.mem_cons_self _ _)

lemma scanExePath_mem (exes : List Candidate) (name : String)
    (p : List String) (h : scanExePath exes name = some p) :
    ∃ e ∈ exes, e.path = p := by
  cases exes with
  | nil => simp [scanExePath] at h
  | cons e rest =>
    cases hp : heuristic_pick (e :: rest) name with
    | some best =>
      simp only [scanExePath, hp] at h
      obtain rfl : best.path = p := by injection h
      exact ⟨best, heuristic_pick_mem _ _ _ hp, rfl⟩
    | none =>
      simp only [scanExePath, hp] at h
      obtain rfl : e.path = p := by injection h
      exact ⟨e, List.mem_cons_self _ _, rfl⟩

lemma scanExePath_head (s : SubdirModel) (p : List String)
    (hpaths : ∀ e ∈ s.exes, e.path.head? = some s.name)
    (h : scanExePath s.exes s.name = some p) : p.head? = some s.name := by
  obtain ⟨e, he, rfl⟩ := scanExePath_mem s.exes s.name p h
  exact hpaths e he

lemma pathAlreadyKnown_iff (st : ScanState) (exe : Option (List String)) :
    pathAlreadyKnown st exe = true ↔
      ∃ p, exe = some p ∧ p ∈ st.existingPaths := by
  cases exe <;> simp [pathAlreadyKnown]

lemma nameAlreadyKnown_iff (st : ScanState) (name : String) :
    nameAlreadyKnown st name = true ↔ ∃ r ∈ st.db, r.name = name := by
  simp [nameAlreadyKnown]

lemma mem_scan_existing (done : List SubdirModel) (p : List String) :
    p ∈ (done.map mkScanRecord).filterMap (·.exePath) ↔
      ∃ d ∈ done, scanExePath d.exes d.name = some p := by
  simp [List.mem_filterMap, List.mem_map, mkScanRecord]

lemma scanStep_skip1 (st : ScanState) (s : SubdirModel)
    (h : pathAlreadyKnown st (scanExePath s.exes s.name) = true) :
    scanStep st s = { st with skipped := st.skipped + 1 } := by
  simp only [scanStep]
  rw [if_pos h]

lemma scanStep_skip2 (st : ScanState) (s : SubdirModel)
    (h1 : pathAlreadyKnown st (scanExePath s.exes s.name) = false)
    (h2 : nameAlreadyKnown st s.name = true) :
    scanStep st s = { st with skipped := st.skipped + 1 } := by
  simp only [scanStep]
  rw [if_neg (by simp [h1]), if_pos h2]

lemma scanStep_import (st : ScanState) (s : SubdirModel)
    (h1 : pathAlreadyKnown st (scanExePath s.exes s.name) = false)
    (h2 : nameAlreadyKnown st s.name = false) :
    scanStep st s =
      ⟨st.db ++ [mkScanRecord s],
        st.existingPaths ++ (scanExePath s.exes s.name).toList,
        st.imported + 1, st.skipped⟩ := by
  simp only [scanStep]
  rw [if_neg (by simp [h1]), if_neg (by simp [h2])]
  cases hse : scanExePath s.exes s.name <;>
    simp [mkScanRecord, hse, Option.toList]

lemma scan_fresh_aux (rest : List SubdirModel) :
    ∀ done : List SubdirModel,
    ((done ++ rest).map (·.name)).Nodup →
    (∀ s ∈ done ++ rest, ∀ e ∈ s.exes, e.path.head? = some s.name) →
    rest.foldl scanStep
        ⟨done.map mkScanRecord,
          (done.map mkScanRecord).filterMap (·.exePath), done.length, 0⟩ =
      ⟨(done ++ rest).map mkScanRecord,
        ((done ++ rest).map mkScanRecord).filterMap (·.exePath),
        (done ++ rest).length, 0⟩ := by
  induction rest with
  | nil => intro done _ _; simp
  | cons s rest ih =>
    intro done h1 h2
    have hs_mem : s ∈ done ++ s :: rest :=
      List.mem_append_right done (List.mem_cons_self s rest)
    have hfresh : s.name ∉ done.map (·.name) := by
      intro hmem
      rw [List.map_append] at h1
      exact (List.nodup_append.mp h1).2.2 hmem (by simp)
    have hp1 : pathAlreadyKnown
        ⟨done.map mkScanRecord,
          (done.map mkScanRecord).filterMap (·.exePath), done.length, 0⟩
        (scanExePath s.exes s.name) = false := by
      rw [Bool.eq_false_iff]
      intro hc
      obtain ⟨p, hse, hpmem⟩ := (pathAlreadyKnown_iff _ _).mp hc
      obtain ⟨d, hd, hdse⟩ := (mem_scan_existing done p).mp hpmem
      have hdn : p.head? = some d.name :=
        scanExePath_head d p (h2 d (List.mem_append_left _ hd)) hdse
      have hsn : p.head? = some s.name :=
        scanExePath_head s p (h2 s hs_mem) hse
      have heq : d.name = s.name := by
        rw [hdn] at hsn
        injection hsn
      exact hfresh (heq ▸ List.mem_map_of_mem (·.name) hd)
    have hn1 : nameAlreadyKnown
        ⟨done.map mkScanRecord,
          (done.map mkScanRecord).filterMap (·.exePath), done.length, 0⟩
        s.name = false := by
      rw [Bool.eq_false_iff]
      intro hc
      obtain ⟨r, hr, hrn⟩ := (nameAlreadyKnown_iff _ _).mp hc
      obtain ⟨d, hd, rfl⟩ := List.mem_map.mp hr
      have heq : d.name = s.name := hrn
      exact hfresh (heq ▸ List.mem_map_of_mem (·.name) hd)
    rw [List.foldl_cons, scanStep_import _ _ hp1 hn1]
    have hstate : (⟨done.map mkScanRecord ++ [mkScanRecord s],
        (done.map mkScanRecord).filterMap (·.exePath) ++
          (scanExePath s.exes s.name).toList,
        done.length + 1, 0⟩ : ScanState) =
      ⟨(done ++ [s]).map mkScanRecord,
        ((done ++ [s]).map mkScanRecord).filterMap (·.exePath),
        (done ++ [s]).length, 0⟩ := by
      rw [List.map_append, List.filterMap_append]
      cases hse : scanExePath s.exes s.name <;>
        simp [mkScanRecord, hse]
    rw [show (⟨done.map mkScanRecord ++ [mkScanRecord s],
        (done.map mkScanRecord).filterMap (·.exePath) ++
          (scanExePath s.exes s.name).toList,
        done.length + 1, 0⟩ : ScanState) =
      ⟨(done ++ [s]).map mkScanRecord,
        ((done ++ [s]).map mkScanRecord).filterMap (·.exePath),
        (done ++ [s]).length, 0⟩ from hstate]
    have h1' : (((done ++ [s]) ++ rest).map (·.name)).Nodup := by
      simpa using h1
    have h2' : ∀ t ∈ (done ++ [s]) ++ rest, ∀ e ∈ t.exes,
        e.path.head? = some t.name := by
      intro t ht
      apply h2
      simpa using ht
    rw [ih (done ++ [s]) h1' h2']
    simp

lemma scan_rescan_aux (rest : List SubdirModel) :
    ∀ (all : List SubdirModel) (k : Nat),
    (∀ s ∈ rest, s ∈ all) →
    rest.foldl scanStep
        ⟨all.map mkScanRecord,
          (all.map mkScanRecord).filterMap (·.exePath), 0, k⟩ =
      ⟨all.map mkScanRecord,
        (all.map mkScanRecord).filterMap (·.exePath), 0,
        k + rest.length⟩ := by
  induction rest with
  | nil => intro all k _; simp
  | cons s rest ih =>
    intro all k hsub
    have hs : s ∈ all := hsub s (List.mem_cons_self s rest)
    have hskip : scanStep
        ⟨all.map mkScanRecord,
          (all.map mkScanRecord).filterMap (·.exePath), 0, k⟩ s =
      ⟨all.map mkScanRecord,
        (all.map mkScanRecord).filterMap (·.exePath), 0, k + 1⟩ := by
      cases hse : scanExePath s.exes s.name with
      | some p =>
        have hp : pathAlreadyKnown
            ⟨all.map mkScanRecord,
              (all.map mkScanRecord).filterMap (·.exePath), 0, k⟩
            (scanExePath s.exes s.name) = true := by
          rw [pathAlreadyKnown_iff]
          exact ⟨p, hse, (mem_scan_existing all p).mpr ⟨s, hs, hse⟩⟩
        exact scanStep_skip1 _ _ hp
      | none =>
        have hp : pathAlreadyKnown
            ⟨all.map mkScanRecord,
              (all.map mkScanRecord).filterMap (·.exePath), 0, k⟩
            (scanExePath s.exes s.name) = false := by
          rw [hse]
          rfl
        have hn : nameAlreadyKnown
            ⟨all.map mkScanRecord,
              (all.map mkScanRecord).filterMap (·.exePath), 0, k⟩
            s.name = true := by
          rw [nameAlreadyKnown_iff]
          exact ⟨mkScanRecord s, List.mem_map_of_mem mkScanRecord hs, rfl⟩
        exact scanStep_skip2 _ _ hp hn
    rw [List.foldl_cons, hskip,
      ih all (k + 1) (fun t ht => hsub t (List.mem_cons_of_mem s ht))]
    have : k + 1 + rest.length = k + (s :: rest).length := by
      simp
      omega
    rw [this]

/-! ## Claim C9 -/

/-- Claim C9: over first-level subdirectories with (necessarily) distinct
names whose discovered executables live inside their own subdirectory,
scanning from an empty metadata store imports all N subdirectories with
nothing skipped and writes exactly one record per subdirectory; running
the identical scan again imports nothing, skips all N (each subdirectory
is caught by the executable-path dedup or, when it has no executables,
by the name dedup), and leaves the store unchanged — no duplicate
records. -/
theorem C9_scan_dedup (subdirs : List SubdirModel)
    (hnodup : (subdirs.map (·.name)).Nodup)
    (hpaths : ∀ s ∈ subdirs, ∀ e ∈ s.exes, e.path.head? = some s.name) :
    (scan_and_import_model [] subdirs).imported = subdirs.length ∧
    (scan_and_import_model [] subdirs).skipped = 0 ∧
    (scan_and_import_model [] subdirs).db = subdirs.map mkScanRecord ∧
    (scan_and_import_model
        (scan_and_import_model [] subdirs).db subdirs).imported = 0 ∧
    (scan_and_import_model
        (scan_and_import_model [] subdirs).db subdirs).skipped =
      subdirs.length ∧
    (scan_and_import_model
        (scan_and_import_model [] subdirs).db subdirs).db =
      (scan_and_import_model [] subdirs).db := by
  have hrun1 : scan_and_import_model [] subdirs =
      ⟨subdirs.map mkScanRecord,
        (subdirs.map mkScanRecord).filterMap (·.exePath),
        subdirs.length, 0⟩ := by
    unfold scan_and_import_model
    simpa using scan_fresh_aux subdirs [] (by simpa using hnodup)
      (by simpa using hpaths)
  have hrun2 : scan_and_import_model (subdirs.map mkScanRecord) subdirs =
      ⟨subdirs.map mkScanRecord,
        (subdirs.map mkScanRecord).filterMap (·.exePath), 0,
        subdirs.length⟩ := by
    unfold scan_and_import_model
    simpa using scan_rescan_aux subdirs subdirs 0 (fun t ht => ht)
  refine ⟨by rw [hrun1], by rw [hrun1], by rw [hrun1], ?_, ?_, ?_⟩
  · rw [show (scan_and_import_model [] subdirs).db =
      subdirs.map mkScanRecord by rw [hrun1], hrun2]
  · rw [show (scan_and_import_model [] subdirs).db =
      subdirs.map mkScanRecord by rw [hrun1], hrun2]
  · rw [show (scan_and_import_model [] subdirs).db =
      subdirs.map mkScanRecord by rw [hrun1], hrun2]

/-- Closed instance of C9: rescanning a root with two subdirectories
(one with an executable, one without) skips both. -/
theorem C9_scan_dedup_witness :
    (scan_and_import_model
        (scan_and_import_model []
          [⟨"A", [⟨["A", "a.exe"], "a", some 10⟩]⟩, ⟨"B", []⟩]).db
        [⟨"A", [⟨["A", "a.exe"], "a", some 10⟩]⟩, ⟨"B", []⟩]).skipped = 2 :=
  (C9_scan_dedup [⟨"A", [⟨["A", "a.exe"], "a", some 10⟩]⟩, ⟨"B", []⟩]
    (by decide) (by decide)).2.2.2.2.1

/-! ## Claim C10 -/

/-- Claim C10 counterexample: with an absent `allowed_dirs` setting the
whitelist is empty, but not every input then fails with a *Forbidden*
result — a relative path is rejected by sanitization with a bad-request
error before the whitelist is ever consulted, so "for every input the
operations fail with a Forbidden result" is false as stated. -/
theorem C10_forbidden_counterexample :
    get_allowed_dirs (fun s => [s]) .absent = [] ∧
    launch_check (fun _ => []) [] (fun _ => false) "relative/x" =
      .error .badRequest ∧
    OsError.badRequest ≠ OsError.forbidden :=
  ⟨rfl, rfl, by decide⟩

/-- Claim C10 (amended): when the configuration store has no
`allowed_dirs` setting or the setting parses to an empty entry list, the
whitelist is empty; then every launch / open-directory request fails
with some error — the process-spawn / explorer side effect is never
reached — and every request that passes sanitization (absolute, no `..`)
fails precisely with the Forbidden result. -/
theorem C10_empty_whitelist_amended :
    (∀ (resolveW : String → List String) (row : RawSetting),
      (row = .absent ∨ parse_allowed_dirs row = []) →
      get_allowed_dirs resolveW row = []) ∧
    (∀ (fs : String → List String) (isFile : List String → Bool)
      (raw : String), ∃ e, launch_check fs [] isFile raw = .error e) ∧
    (∀ (fs : String → List String) (isDir : List String → Bool)
      (raw : String), ∃ e, open_dir_check fs [] isDir raw = .error e) ∧
    (∀ (fs : String → List String) (isFile : List String → Bool)
      (raw : String), containsDotDot raw = false →
      isAbsolutePath raw = true →
      launch_check fs [] isFile raw = .error .forbidden) ∧
    (∀ (fs : String → List String) (isDir : List String → Bool)
      (raw : String), containsDotDot raw = false →
      isAbsolutePath raw = true →
      open_dir_check fs [] isDir raw = .error .forbidden) := by
  refine ⟨?_, ?_, ?_, ?_, ?_⟩
  · intro resolveW row h
    rcases h with rfl | h
    · rfl
    · cases row with
      | absent => rfl
      | invalidJson => rfl
      | notAList => rfl
      | items l => simp [get_allowed_dirs, h]
  · intro fs isFile raw
    cases hs : sanitize_and_resolve fs raw with
    | error e => exact ⟨.badRequest, by simp [launch_check, hs]⟩
    | ok p =>
      exact ⟨.forbidden,
        by simp [launch_check, hs, validate_path_within_whitelist]⟩
  · intro fs isDir raw
    cases hs : sanitize_and_resolve fs raw with
    | error e => exact ⟨.badRequest, by simp [open_dir_check, hs]⟩
    | ok p =>
      exact ⟨.forbidden,
        by simp [open_dir_check, hs, validate_path_within_whitelist]⟩
  · intro fs isFile raw h1 h2
    simp [launch_check, sanitize_and_resolve, h1, h2,
      validate_path_within_whitelist]
  · intro fs isDir raw h1 h2
    simp [open_dir_check, sanitize_and_resolve, h1, h2,
      validate_path_within_whitelist]

/-- Closed instance of the amended C10: an absolute, traversal-free path
is rejected with Forbidden under the empty whitelist. -/
theorem C10_empty_whitelist_amended_witness :
    launch_check (fun _ => ["x"]) [] (fun _ => true) "/x" =
      .error .forbidden :=
  C10_empty_whitelist_amended.2.2.2.1 (fun _ => ["x"]) (fun _ => true) "/x"
    (by decide) (by decide)
